import Mathlib

/-!
Verification of the size-diff computation and ranking algorithm of the
mui-maintainer-dashboard-remix repository.

The embedded code lives in the route modules `src/unnamed/part_001`
(loader: union of bundle keys, per-bundle `Size` record, `docs:` prefix
partition), `src/unnamed/part_003` / `src/unnamed/part_004` (the
`CompareTable` / `ComparisonTable` row sort comparator) and
`src/app/routes/test-profile/$buildNumber/details/$testId.tsx`
(`TimingAnalysisMean`).

Modelling conventions:
* JavaScript objects `{ [bundleId]: {parsed, gzip} }` are modelled as
  association lists `List (String × SnapshotValue)`; a JS object has
  distinct keys, which becomes a `Nodup` hypothesis where a claim needs it.
  `Object.keys({...base, ...target})` enumerates the keys of `base` in
  insertion order followed by the keys of `target` not present in `base`
  (bundle identifiers are never array indices, so the array-index special
  case of JS key ordering does not arise).
* JS numbers are modelled as exact rationals extended with the special
  values `+Infinity`, `-Infinity` and `NaN` (`JSNumber`); float rounding is
  out of scope.  Division follows IEEE semantics on those values:
  `c / 0` is `+Infinity` for `c > 0`, `-Infinity` for `c < 0` and `NaN`
  for `c = 0`; subtracting `1` fixes each special value.
* `String.prototype.localeCompare` is modelled as comparison in the linear
  order on `String`, returning `-1`, `0` or `1`; the claims about the sort
  only use that it is a total order, which holds for any locale collation.
-/

/-- A JavaScript `number`: an exact rational or one of the IEEE special
values that the size-diff computation can produce. -/
inductive JSNumber where
  | num (val : ℚ)
  | posInf
  | negInf
  | nan
deriving DecidableEq

/-- JavaScript division `a / b` restricted to finite operands, returning a
`JSNumber` so that division by zero is represented faithfully. -/
def jsDiv (a b : ℚ) : JSNumber :=
  if b = 0 then
    if 0 < a then JSNumber.posInf
    else if a < 0 then JSNumber.negInf
    else JSNumber.nan
  else JSNumber.num (a / b)

/-- JavaScript subtraction of the constant `1`, as used in
`current / previous - 1`: the special values absorb the subtraction. -/
def jsSubOne : JSNumber → JSNumber
  | JSNumber.num q => JSNumber.num (q - 1)
  | x => x

/-- One measurement of a bundle in a size snapshot: the value type of the
TS interface `SizeSnapshot` (`{ parsed: number; gzip: number }`). -/
structure SnapshotValue where
  parsed : ℚ
  gzip : ℚ
deriving DecidableEq

/-- The TS interface `SizeSnapshot`: a mapping from bundle identifier to a
measurement, modelled as an association list in insertion order. -/
abbrev SizeSnapshot := List (String × SnapshotValue)

/-- The constant `nullSnapshot = { parsed: 0, gzip: 0 }` used as the default
for a bundle missing from one of the two snapshots. -/
def nullSnapshot : SnapshotValue := ⟨0, 0⟩

/-- One metric of the TS interface `Size`
(`{ previous; current; absoluteDiff; relativeDiff }`). -/
structure SizeMetric where
  previous : ℚ
  current : ℚ
  absoluteDiff : ℚ
  relativeDiff : JSNumber
deriving DecidableEq

/-- The TS interface `Size`: the per-bundle delta record with a `parsed`
and a `gzip` metric. -/
structure Size where
  parsed : SizeMetric
  gzip : SizeMetric
deriving DecidableEq

/-- The body of the `bundleKeys.forEach` loop of the loader in
`src/unnamed/part_001` (and identically in `part_003` / `part_004`):
look up the bundle in `targetSnapshot` and `baseSnapshot`, defaulting a
missing entry with `nullSnapshot`, and build the `[bundle, Size]` entry. -/
def computeEntry (baseSnapshot targetSnapshot : SizeSnapshot)
    (bundle : String) : String × Size :=
  let currentSize := (targetSnapshot.lookup bundle).getD nullSnapshot
  let previousSize := (baseSnapshot.lookup bundle).getD nullSnapshot
  (bundle,
    { parsed :=
        { previous := previousSize.parsed
          current := currentSize.parsed
          absoluteDiff := currentSize.parsed - previousSize.parsed
          relativeDiff := jsSubOne (jsDiv currentSize.parsed previousSize.parsed) }
      gzip :=
        { previous := previousSize.gzip
          current := currentSize.gzip
          absoluteDiff := currentSize.gzip - previousSize.gzip
          relativeDiff := jsSubOne (jsDiv currentSize.gzip previousSize.gzip) } })

/-- `Object.keys({ ...baseSnapshot, ...targetSnapshot })`: the keys of the
base snapshot in insertion order followed by the keys of the target
snapshot that are not keys of the base snapshot. -/
def bundleKeys (baseSnapshot targetSnapshot : SizeSnapshot) : List String :=
  baseSnapshot.map Prod.fst ++
    (targetSnapshot.map Prod.fst).filter
      (fun k => !((baseSnapshot.map Prod.fst).contains k))

/-- The size-diff computation `compute(base, target)` of the specification:
one `Size` entry per bundle key in the union, in key order.  This is the
`bundleKeys.forEach` loop of the loader in `src/unnamed/part_001` with the
`docs:` partitioning left to `loaderLists` below. -/
def compute (baseSnapshot targetSnapshot : SizeSnapshot) :
    List (String × Size) :=
  (bundleKeys baseSnapshot targetSnapshot).map
    (computeEntry baseSnapshot targetSnapshot)

/-- The loader loop of `src/unnamed/part_001` (lines 116-150) including the
partition: entries whose bundle id starts with `"docs:"` are pushed onto
`pages`, all others onto `main`, in key order. -/
def loaderLists (baseSnapshot targetSnapshot : SizeSnapshot) :
    List (String × Size) × List (String × Size) :=
  (bundleKeys baseSnapshot targetSnapshot).foldl
    (fun acc bundle =>
      let entry := computeEntry baseSnapshot targetSnapshot bundle
      if bundle.startsWith "docs:" then (acc.1, acc.2 ++ [entry])
      else (acc.1 ++ [entry], acc.2))
    ([], [])

example :
    compute [("b", ⟨100, 50⟩)] [] =
      [("b", { parsed := ⟨100, 0, -100, JSNumber.num (-1)⟩
               gzip := ⟨50, 0, -50, JSNumber.num (-1)⟩ })] := by
  simp [compute, computeEntry, bundleKeys, jsDiv, jsSubOne, nullSnapshot]

example :
    compute [("b", ⟨0, 0⟩)] [] =
      [("b", { parsed := ⟨0, 0, 0, JSNumber.nan⟩
               gzip := ⟨0, 0, 0, JSNumber.nan⟩ })] := by
  simp [compute, computeEntry, bundleKeys, jsDiv, jsSubOne, nullSnapshot]

example :
    compute [] [("b", ⟨100, 50⟩)] =
      [("b", { parsed := ⟨0, 100, 100, JSNumber.posInf⟩
               gzip := ⟨0, 50, 50, JSNumber.posInf⟩ })] := by
  simp [compute, computeEntry, bundleKeys, jsDiv, jsSubOne, nullSnapshot]

/-! ### Basic lemmas about the computation -/

theorem computeEntry_fst (b t : SizeSnapshot) (k : String) :
    (computeEntry b t k).1 = k := rfl

theorem compute_map_fst (b t : SizeSnapshot) :
    (compute b t).map Prod.fst = bundleKeys b t := by
  simp [compute, List.map_map, Function.comp_def, computeEntry_fst]

theorem mem_bundleKeys {b t : SizeSnapshot} {k : String} :
    k ∈ bundleKeys b t ↔ k ∈ b.map Prod.fst ∨ k ∈ t.map Prod.fst := by
  simp only [bundleKeys, List.mem_append, List.mem_filter, List.contains,
    List.elem_eq_mem, Bool.not_eq_eq_eq_not, Bool.not_true, decide_eq_false_iff_not]
  constructor
  · rintro (h | ⟨h, -⟩)
    · exact Or.inl h
    · exact Or.inr h
  · rintro (h | h)
    · exact Or.inl h
    · by_cases hb : k ∈ b.map Prod.fst
      · exact Or.inl hb
      · exact Or.inr ⟨h, hb⟩

theorem lookup_eq_none_of_not_mem {l : SizeSnapshot} {k : String}
    (h : k ∉ l.map Prod.fst) : l.lookup k = none := by
  rw [List.lookup_eq_none_iff]
  intro p hp
  simp only [bne_iff_ne, ne_eq]
  intro hk
  exact h (List.mem_map.mpr ⟨p, hp, hk.symm⟩)

theorem loaderLists_go (b t : SizeSnapshot) (l : List String)
    (acc : List (String × Size) × List (String × Size)) :
    l.foldl
      (fun acc bundle =>
        let entry := computeEntry b t bundle
        if bundle.startsWith "docs:" then (acc.1, acc.2 ++ [entry])
        else (acc.1 ++ [entry], acc.2))
      acc =
    (acc.1 ++ (l.filter (fun k => !(k.startsWith "docs:"))).map (computeEntry b t),
     acc.2 ++ (l.filter (fun k => k.startsWith "docs:")).map (computeEntry b t)) := by
  induction l generalizing acc with
  | nil => simp
  | cons k l ih =>
    by_cases h : k.startsWith "docs:" <;>
      simp [List.foldl_cons, ih, h, List.filter_cons]

theorem loaderLists_eq (b t : SizeSnapshot) :
    loaderLists b t =
      ((compute b t).filter (fun e => !(e.1.startsWith "docs:")),
       (compute b t).filter (fun e => e.1.startsWith "docs:")) := by
  rw [loaderLists, loaderLists_go]
  simp only [List.nil_append, compute, List.filter_map, Function.comp_def,
    computeEntry_fst]

/-! ### Claims about the diff computation -/

/-- C2: for all snapshots `A` and `B`, the bundle identifiers emitted by
`compute A B` form exactly the union of the key sets of `A` and `B`, each
identifier appears exactly once, and the number of emitted entries equals
the cardinality of that union. -/
theorem compute_bundle_union (b t : SizeSnapshot)
    (hb : (b.map Prod.fst).Nodup) (ht : (t.map Prod.fst).Nodup) :
    ((compute b t).map Prod.fst).toFinset =
      (b.map Prod.fst).toFinset ∪ (t.map Prod.fst).toFinset ∧
    ((compute b t).map Prod.fst).Nodup ∧
    (compute b t).length =
      ((b.map Prod.fst).toFinset ∪ (t.map Prod.fst).toFinset).card := by
  have hset :
      ((compute b t).map Prod.fst).toFinset =
        (b.map Prod.fst).toFinset ∪ (t.map Prod.fst).toFinset := by
    ext k
    simp [compute_map_fst, mem_bundleKeys]
  have hnodup : ((compute b t).map Prod.fst).Nodup := by
    rw [compute_map_fst, bundleKeys]
    refine List.Nodup.append hb (ht.filter _) ?_
    intro k hkb hkf
    have := (List.mem_filter.mp hkf).2
    simp only [List.contains, List.elem_eq_mem, Bool.not_eq_eq_eq_not,
      Bool.not_true, decide_eq_false_iff_not] at this
    exact this hkb
  refine ⟨hset, hnodup, ?_⟩
  have hlen : (compute b t).length = ((compute b t).map Prod.fst).length := by
    simp
  rw [hlen, ← List.toFinset_card_of_nodup hnodup, hset]

/-- C3: every entry emitted by `compute base target` takes `previous` from
the base snapshot and `current` from the target snapshot, substituting the
zero default `nullSnapshot` for a missing entry, and satisfies
`absoluteDiff = current - previous` for both metrics. -/
theorem compute_entry_fields (b t : SizeSnapshot) (e : String × Size)
    (he : e ∈ compute b t) :
    e.2.parsed.previous = ((b.lookup e.1).getD nullSnapshot).parsed ∧
    e.2.parsed.current = ((t.lookup e.1).getD nullSnapshot).parsed ∧
    e.2.gzip.previous = ((b.lookup e.1).getD nullSnapshot).gzip ∧
    e.2.gzip.current = ((t.lookup e.1).getD nullSnapshot).gzip ∧
    e.2.parsed.absoluteDiff = e.2.parsed.current - e.2.parsed.previous ∧
    e.2.gzip.absoluteDiff = e.2.gzip.current - e.2.gzip.previous := by
  obtain ⟨k, -, rfl⟩ := List.mem_map.mp he
  simp [computeEntry]

/-- C4: every emitted entry satisfies
`relativeDiff = current / previous - 1` in JS-number arithmetic for both
metrics; in particular a newly added bundle (`previous = 0`,
`current > 0`) gets `relativeDiff = +Infinity`.  The computation is a total
function and stores the infinite value unclamped. -/
theorem compute_relativeDiff (b t : SizeSnapshot) (e : String × Size)
    (he : e ∈ compute b t) :
    e.2.parsed.relativeDiff =
      jsSubOne (jsDiv e.2.parsed.current e.2.parsed.previous) ∧
    e.2.gzip.relativeDiff =
      jsSubOne (jsDiv e.2.gzip.current e.2.gzip.previous) ∧
    (e.2.parsed.previous = 0 → 0 < e.2.parsed.current →
      e.2.parsed.relativeDiff = JSNumber.posInf) ∧
    (e.2.gzip.previous = 0 → 0 < e.2.gzip.current →
      e.2.gzip.relativeDiff = JSNumber.posInf) := by
  obtain ⟨k, -, rfl⟩ := List.mem_map.mp he
  refine ⟨rfl, rfl, ?_, ?_⟩ <;>
    · intro h0 hpos
      simp only [computeEntry] at h0 hpos ⊢
      simp [jsDiv, jsSubOne, h0, hpos]

/-- C6: comparing a snapshot with itself yields only zero absolute diffs,
and zero relative diffs wherever the previous value is nonzero. -/
theorem compute_self_diff_zero (A : SizeSnapshot) (e : String × Size)
    (he : e ∈ compute A A) :
    e.2.parsed.absoluteDiff = 0 ∧ e.2.gzip.absoluteDiff = 0 ∧
    (e.2.parsed.previous ≠ 0 → e.2.parsed.relativeDiff = JSNumber.num 0) ∧
    (e.2.gzip.previous ≠ 0 → e.2.gzip.relativeDiff = JSNumber.num 0) := by
  obtain ⟨k, -, rfl⟩ := List.mem_map.mp he
  refine ⟨by simp [computeEntry], by simp [computeEntry], ?_, ?_⟩ <;>
    · intro h0
      simp only [computeEntry] at h0 ⊢
      simp [jsDiv, jsSubOne, h0, div_self]

/-- C5, counterexample: a bundle present in the base snapshot with
measurement `0` and absent from the target snapshot yields
`relativeDiff = NaN` (`0 / 0 - 1`), not `-1`, so "a removed bundle always
yields `relativeDiff = -1` exactly" fails as stated. -/
theorem removed_zero_bundle_relativeDiff_nan :
    (compute [("b", ⟨0, 0⟩)] []).map (fun e => e.2.parsed.relativeDiff) =
      [JSNumber.nan] ∧
    JSNumber.nan ≠ JSNumber.num (-1) := by
  constructor
  · simp [compute, computeEntry, bundleKeys, jsDiv, jsSubOne, nullSnapshot]
  · simp

/-- C5, amended: a bundle present in base and absent from target yields
`current = 0` and `absoluteDiff = -previous` for both metrics, and
`relativeDiff = -1` exactly for each metric whose previous value is
nonzero; concretely `compute [("b", {parsed := 100, gzip := 50})] []`
yields the single entry with `current = 0`, `absoluteDiff = -100` and
`relativeDiff = -1`. -/
theorem removed_bundle_relativeDiff (b t : SizeSnapshot) (e : String × Size)
    (he : e ∈ compute b t) (habs : e.1 ∉ t.map Prod.fst) :
    e.2.parsed.current = 0 ∧ e.2.gzip.current = 0 ∧
    e.2.parsed.absoluteDiff = -e.2.parsed.previous ∧
    e.2.gzip.absoluteDiff = -e.2.gzip.previous ∧
    (e.2.parsed.previous ≠ 0 → e.2.parsed.relativeDiff = JSNumber.num (-1)) ∧
    (e.2.gzip.previous ≠ 0 → e.2.gzip.relativeDiff = JSNumber.num (-1)) ∧
    compute [("b", ⟨100, 50⟩)] [] =
      [("b", { parsed := ⟨100, 0, -100, JSNumber.num (-1)⟩
               gzip := ⟨50, 0, -50, JSNumber.num (-1)⟩ })] := by
  obtain ⟨k, -, rfl⟩ := List.mem_map.mp he
  rw [computeEntry_fst] at habs
  have hnone : t.lookup k = none := lookup_eq_none_of_not_mem habs
  refine ⟨?_, ?_, ?_, ?_, ?_, ?_, ?_⟩
  · simp [computeEntry, hnone, nullSnapshot]
  · simp [computeEntry, hnone, nullSnapshot]
  · simp [computeEntry, hnone, nullSnapshot]
  · simp [computeEntry, hnone, nullSnapshot]
  · intro h0
    simp only [computeEntry, nullSnapshot] at h0 ⊢
    simp [jsDiv, jsSubOne, hnone, h0]
  · intro h0
    simp only [computeEntry, nullSnapshot] at h0 ⊢
    simp [jsDiv, jsSubOne, hnone, h0]
  · simp [compute, computeEntry, bundleKeys, jsDiv, jsSubOne, nullSnapshot]

/-- C7: the computation is total: two empty snapshots produce the empty
sequence, and for disjoint key sets every bundle of either snapshot gets
an entry, each fully added (`previous = 0` in both metrics) or fully
removed (`current = 0` in both metrics). -/
theorem compute_total (b t : SizeSnapshot)
    (hdisj : ∀ k, k ∈ b.map Prod.fst → k ∉ t.map Prod.fst) :
    compute ([] : SizeSnapshot) [] = [] ∧
    (compute b t).map Prod.fst = b.map Prod.fst ++ t.map Prod.fst ∧
    ∀ e ∈ compute b t,
      (e.2.parsed.previous = 0 ∧ e.2.gzip.previous = 0) ∨
      (e.2.parsed.current = 0 ∧ e.2.gzip.current = 0) := by
  refine ⟨rfl, ?_, ?_⟩
  · rw [compute_map_fst, bundleKeys]
    congr 1
    rw [List.filter_eq_self]
    intro k hk
    simp only [List.contains, List.elem_eq_mem, Bool.not_eq_eq_eq_not,
      Bool.not_true, decide_eq_false_iff_not]
    intro hb
    exact hdisj k hb hk
  · intro e he
    obtain ⟨k, hk, rfl⟩ := List.mem_map.mp he
    rcases mem_bundleKeys.mp hk with hb | ht
    · right
      have hnone : t.lookup k = none :=
        lookup_eq_none_of_not_mem (hdisj k hb)
      simp [computeEntry, hnone, nullSnapshot]
    · by_cases hb : k ∈ b.map Prod.fst
      · right
        have hnone : t.lookup k = none :=
          lookup_eq_none_of_not_mem (hdisj k hb)
        simp [computeEntry, hnone, nullSnapshot]
      · left
        have hnone : b.lookup k = none := lookup_eq_none_of_not_mem hb
        simp [computeEntry, hnone, nullSnapshot]

/-! ### The loader around the computation -/

/-- The TS interface `AppData` of `src/unnamed/part_001`: the two entry
lists returned by the loader. -/
structure AppData where
  main : List (String × Size)
  pages : List (String × Size)

/-- Outcome of the loader of `src/unnamed/part_001`: either the `json`
success response with `AppData`, or the `json` response thrown by the
`.catch` handler of `Promise.all`, carrying the HTTP status, the
stringified rejection reason and the PR number. -/
inductive LoaderResult where
  | success (data : AppData)
  | thrownResponse (status : ℕ) (statusText : String) (prNumber : Int)

/-- The loader of `src/unnamed/part_001` (lines 109-153), after the
ETag/304 early return: the outcome of the two concurrent snapshot fetches
is passed in as an `Except` value, `Except.error` holding the stringified
reason of the first rejection of `Promise.all`.  On a fetch failure the
`.catch` handler throws a 404 `json` response and the diff computation
does not run; on success the `bundleKeys.forEach` loop builds the data. -/
def loader (prNumber : Int)
    (fetchResult : Except String (SizeSnapshot × SizeSnapshot)) :
    LoaderResult :=
  match fetchResult with
  | Except.error reason => LoaderResult.thrownResponse 404 reason prNumber
  | Except.ok (baseSnapshot, targetSnapshot) =>
      LoaderResult.success
        ⟨(loaderLists baseSnapshot targetSnapshot).1,
         (loaderLists baseSnapshot targetSnapshot).2⟩

/-- C9: when either snapshot fetch fails, the loader yields the thrown
404 response carrying the fetch failure, and never a success value, so
the diff computation is not consulted and no engine-level failure can be
surfaced. -/
theorem loader_fetch_failure (prNumber : Int) (reason : String) :
    loader prNumber (Except.error reason) =
      LoaderResult.thrownResponse 404 reason prNumber ∧
    ∀ data : AppData,
      loader prNumber (Except.error reason) ≠ LoaderResult.success data := by
  refine ⟨rfl, ?_⟩
  intro data h
  simp [loader] at h

/-- C9 witness: the theorem instantiated at a concrete PR number,
rejection reason and candidate success value. -/
theorem loader_fetch_failure_witness :
    loader 1 (Except.error "HTTP 500") =
      LoaderResult.thrownResponse 404 "HTTP 500" 1 ∧
    loader 1 (Except.error "HTTP 500") ≠
      LoaderResult.success ⟨[], []⟩ :=
  ⟨(loader_fetch_failure 1 "HTTP 500").1,
   (loader_fetch_failure 1 "HTTP 500").2 ⟨[], []⟩⟩

/-- C10: the loader loop partitions the computed entries by bundle id
prefix: exactly the entries whose id starts with `"docs:"` go to `pages`
and all others to `main`; the two key sets are disjoint and together are
exactly the union of the key sets of the two snapshots. -/
theorem loader_docs_partition (b t : SizeSnapshot) :
    loaderLists b t =
      ((compute b t).filter (fun e => !(e.1.startsWith "docs:")),
       (compute b t).filter (fun e => e.1.startsWith "docs:")) ∧
    ((loaderLists b t).1.map Prod.fst).toFinset ∩
      ((loaderLists b t).2.map Prod.fst).toFinset = ∅ ∧
    ((loaderLists b t).1.map Prod.fst).toFinset ∪
      ((loaderLists b t).2.map Prod.fst).toFinset =
      (b.map Prod.fst).toFinset ∪ (t.map Prod.fst).toFinset := by
  refine ⟨loaderLists_eq b t, ?_, ?_⟩
  · rw [Finset.eq_empty_iff_forall_not_mem]
    intro k hk
    rw [Finset.mem_inter] at hk
    obtain ⟨h1, h2⟩ := hk
    rw [List.mem_toFinset, loaderLists_eq] at h1 h2
    obtain ⟨e1, he1, hk1⟩ := List.mem_map.mp h1
    obtain ⟨e2, he2, hk2⟩ := List.mem_map.mp h2
    rw [List.mem_filter] at he1 he2
    rw [hk1] at he1
    rw [hk2] at he2
    simp only [Bool.not_eq_eq_eq_not, Bool.not_true] at he1
    rw [he2.2] at he1
    simp at he1
  · ext k
    constructor
    · intro hmem
      rw [Finset.mem_union] at hmem
      have hk : k ∈ (compute b t).map Prod.fst := by
        rcases hmem with h | h <;>
          · rw [List.mem_toFinset, loaderLists_eq] at h
            obtain ⟨e, he, rfl⟩ := List.mem_map.mp h
            exact List.mem_map_of_mem Prod.fst (List.mem_filter.mp he).1
      rw [compute_map_fst] at hk
      rcases mem_bundleKeys.mp hk with h | h
      · exact Finset.mem_union_left _ (List.mem_toFinset.mpr h)
      · exact Finset.mem_union_right _ (List.mem_toFinset.mpr h)
    · intro hmem
      have hk : k ∈ (compute b t).map Prod.fst := by
        rw [compute_map_fst]
        refine mem_bundleKeys.mpr ?_
        rw [Finset.mem_union, List.mem_toFinset, List.mem_toFinset] at hmem
        exact hmem
      obtain ⟨e, he, rfl⟩ := List.mem_map.mp hk
      rw [Finset.mem_union, List.mem_toFinset, List.mem_toFinset,
        loaderLists_eq]
      by_cases hd : e.1.startsWith "docs:"
      · exact Or.inr
          (List.mem_map_of_mem Prod.fst (List.mem_filter.mpr ⟨he, hd⟩))
      · exact Or.inl
          (List.mem_map_of_mem Prod.fst
            (List.mem_filter.mpr ⟨he, by simp [hd]⟩))

/-! ### Concrete snapshots used to instantiate the theorems -/

/-- A concrete base snapshot with a module bundle and a docs page bundle. -/
def wBase : SizeSnapshot := [("a", ⟨1000, 400⟩), ("docs:home", ⟨8, 4⟩)]

/-- A concrete target snapshot sharing the key `"a"` with `wBase` and
adding the key `"b"`. -/
def wTarget : SizeSnapshot := [("a", ⟨1100, 440⟩), ("b", ⟨100, 50⟩)]

/-- A concrete snapshot whose only bundle is removed in the empty target. -/
def wRemoved : SizeSnapshot := [("b", ⟨100, 50⟩)]

theorem mem_compute_of_mem_keys {b t : SizeSnapshot} {k : String}
    (h : k ∈ bundleKeys b t) : computeEntry b t k ∈ compute b t :=
  List.mem_map_of_mem _ h

/-- C2 witness: the union, uniqueness and cardinality facts at the two
concrete snapshots. -/
theorem compute_bundle_union_witness :
    ((wBase.map Prod.fst).Nodup ∧ (wTarget.map Prod.fst).Nodup) ∧
    (((compute wBase wTarget).map Prod.fst).toFinset =
        (wBase.map Prod.fst).toFinset ∪ (wTarget.map Prod.fst).toFinset ∧
      ((compute wBase wTarget).map Prod.fst).Nodup ∧
      (compute wBase wTarget).length =
        ((wBase.map Prod.fst).toFinset ∪
          (wTarget.map Prod.fst).toFinset).card) :=
  ⟨⟨by decide, by decide⟩,
   compute_bundle_union wBase wTarget (by decide) (by decide)⟩

/-- C3 witness: the field equations at the concrete entry for `"a"`. -/
theorem compute_entry_fields_witness :
    computeEntry wBase wTarget "a" ∈ compute wBase wTarget ∧
    ((computeEntry wBase wTarget "a").2.parsed.previous =
        ((wBase.lookup "a").getD nullSnapshot).parsed ∧
      (computeEntry wBase wTarget "a").2.parsed.current =
        ((wTarget.lookup "a").getD nullSnapshot).parsed ∧
      (computeEntry wBase wTarget "a").2.gzip.previous =
        ((wBase.lookup "a").getD nullSnapshot).gzip ∧
      (computeEntry wBase wTarget "a").2.gzip.current =
        ((wTarget.lookup "a").getD nullSnapshot).gzip ∧
      (computeEntry wBase wTarget "a").2.parsed.absoluteDiff =
        (computeEntry wBase wTarget "a").2.parsed.current -
          (computeEntry wBase wTarget "a").2.parsed.previous ∧
      (computeEntry wBase wTarget "a").2.gzip.absoluteDiff =
        (computeEntry wBase wTarget "a").2.gzip.current -
          (computeEntry wBase wTarget "a").2.gzip.previous) := by
  have hmem : computeEntry wBase wTarget "a" ∈ compute wBase wTarget :=
    mem_compute_of_mem_keys (by decide)
  exact ⟨hmem, compute_entry_fields wBase wTarget _ hmem⟩

/-- C4 witness: the added bundle `"b"` has `previous = 0`, `current = 100`
and relative diff `+Infinity`. -/
theorem compute_relativeDiff_witness :
    computeEntry wBase wTarget "b" ∈ compute wBase wTarget ∧
    (computeEntry wBase wTarget "b").2.parsed.previous = 0 ∧
    0 < (computeEntry wBase wTarget "b").2.parsed.current ∧
    (computeEntry wBase wTarget "b").2.parsed.relativeDiff =
      jsSubOne (jsDiv (computeEntry wBase wTarget "b").2.parsed.current
        (computeEntry wBase wTarget "b").2.parsed.previous) ∧
    (computeEntry wBase wTarget "b").2.parsed.relativeDiff =
      JSNumber.posInf := by
  have hmem : computeEntry wBase wTarget "b" ∈ compute wBase wTarget :=
    mem_compute_of_mem_keys (by decide)
  have h0 : (computeEntry wBase wTarget "b").2.parsed.previous = 0 := by
    simp [computeEntry, wBase, wTarget, nullSnapshot, List.lookup]
  have hpos : 0 < (computeEntry wBase wTarget "b").2.parsed.current := by
    simp [computeEntry, wBase, wTarget, nullSnapshot, List.lookup]
  exact ⟨hmem, h0, hpos,
    (compute_relativeDiff wBase wTarget _ hmem).1,
    (compute_relativeDiff wBase wTarget _ hmem).2.2.1 h0 hpos⟩

/-- C6 witness: comparing `wBase` with itself at the entry for `"a"`. -/
theorem compute_self_diff_zero_witness :
    computeEntry wBase wBase "a" ∈ compute wBase wBase ∧
    (computeEntry wBase wBase "a").2.parsed.previous ≠ 0 ∧
    ((computeEntry wBase wBase "a").2.parsed.absoluteDiff = 0 ∧
      (computeEntry wBase wBase "a").2.gzip.absoluteDiff = 0 ∧
      (computeEntry wBase wBase "a").2.parsed.relativeDiff =
        JSNumber.num 0) := by
  have hmem : computeEntry wBase wBase "a" ∈ compute wBase wBase :=
    mem_compute_of_mem_keys (by decide)
  have h0 : (computeEntry wBase wBase "a").2.parsed.previous ≠ 0 := by
    simp [computeEntry, wBase, nullSnapshot, List.lookup]
  exact ⟨hmem, h0,
    (compute_self_diff_zero wBase _ hmem).1,
    (compute_self_diff_zero wBase _ hmem).2.1,
    (compute_self_diff_zero wBase _ hmem).2.2.1 h0⟩

/-- C5 witness: the entry for the removed bundle `"b"` of `wRemoved`. -/
theorem removed_bundle_relativeDiff_witness :
    computeEntry wRemoved [] "b" ∈ compute wRemoved [] ∧
    (computeEntry wRemoved [] "b").1 ∉ ([] : SizeSnapshot).map Prod.fst ∧
    (computeEntry wRemoved [] "b").2.parsed.previous ≠ 0 ∧
    ((computeEntry wRemoved [] "b").2.parsed.current = 0 ∧
      (computeEntry wRemoved [] "b").2.parsed.absoluteDiff =
        -(computeEntry wRemoved [] "b").2.parsed.previous ∧
      (computeEntry wRemoved [] "b").2.parsed.relativeDiff =
        JSNumber.num (-1)) := by
  have hmem : computeEntry wRemoved [] "b" ∈ compute wRemoved [] :=
    mem_compute_of_mem_keys (by decide)
  have habs : (computeEntry wRemoved [] "b").1 ∉
      ([] : SizeSnapshot).map Prod.fst := by simp
  have h0 : (computeEntry wRemoved [] "b").2.parsed.previous ≠ 0 := by
    simp [computeEntry, wRemoved, nullSnapshot, List.lookup]
  exact ⟨hmem, habs, h0,
    (removed_bundle_relativeDiff wRemoved [] _ hmem habs).1,
    (removed_bundle_relativeDiff wRemoved [] _ hmem habs).2.2.1,
    (removed_bundle_relativeDiff wRemoved [] _ hmem habs).2.2.2.2.1 h0⟩

/-- C7 witness: two disjoint one-bundle snapshots. -/
theorem compute_total_witness :
    (∀ k, k ∈ wRemoved.map Prod.fst → k ∉ wBase.map Prod.fst) ∧
    (compute ([] : SizeSnapshot) [] = [] ∧
      (compute wRemoved wBase).map Prod.fst =
        wRemoved.map Prod.fst ++ wBase.map Prod.fst ∧
      ∀ e ∈ compute wRemoved wBase,
        (e.2.parsed.previous = 0 ∧ e.2.gzip.previous = 0) ∨
        (e.2.parsed.current = 0 ∧ e.2.gzip.current = 0)) :=
  ⟨by decide, compute_total wRemoved wBase (by decide)⟩

/-! ### The comparison-table row sort -/

/-- A row of the comparison table as built in `CompareTable`
(`src/unnamed/part_003`) and `ComparisonTable` (`src/unnamed/part_004`):
`[getBundleLabel(bundleId), { ...size, id: bundleId }]`. -/
structure Row where
  label : String
  size : Size
  id : String
deriving DecidableEq

/-- `String.prototype.localeCompare`, modelled through the linear order on
`String`: negative when `a` precedes `b`, positive when `b` precedes `a`,
zero otherwise.  The sort claims only use that the collation is a total
order, which holds for any locale. -/
def localeCompare (a b : String) : Int :=
  if a < b then -1 else if b < a then 1 else 0

/-- The row sort comparator of `CompareTable` / `ComparisonTable`
(`orderBy(|parsedDiff| DESC, |gzipDiff| DESC, name ASC)`): the
`compareParsedDiff` difference unless zero, then `compareGzipDiff` unless
both are zero, then `localeCompare` on the labels. -/
def rowComparator (a b : Row) : ℚ :=
  let compareParsedDiff :=
    |b.size.parsed.absoluteDiff| - |a.size.parsed.absoluteDiff|
  let compareGzipDiff :=
    |b.size.gzip.absoluteDiff| - |a.size.gzip.absoluteDiff|
  let compareName := localeCompare a.label b.label
  if compareParsedDiff = 0 ∧ compareGzipDiff = 0 then (compareName : ℚ)
  else if compareParsedDiff = 0 then compareGzipDiff
  else compareParsedDiff

/-- The sort order induced by `rowComparator`: `a` sorts no later than `b`
exactly when the comparator is nonpositive, which is the postcondition of
`Array.prototype.sort` for a consistent comparator. -/
def rowLE (a b : Row) : Bool := decide (rowComparator a b ≤ 0)

/-- The `rows` memo of `CompareTable` / `ComparisonTable`: relabel each
entry, keep the bundle id, and sort with `rowComparator`. -/
def rows (getBundleLabel : String → String)
    (entries : List (String × Size)) : List Row :=
  (entries.map (fun e => Row.mk (getBundleLabel e.1) e.2 e.1)).mergeSort
    rowLE

theorem localeCompare_nonpos {a b : String} :
    localeCompare a b ≤ 0 ↔ a ≤ b := by
  unfold localeCompare
  split_ifs with h1 h2
  · simp [le_of_lt h1]
  · simp [not_le.mpr h2]
  · simp [not_lt.mp h2]

theorem rowLE_iff {a b : Row} :
    rowLE a b = true ↔
      |b.size.parsed.absoluteDiff| < |a.size.parsed.absoluteDiff| ∨
      (|a.size.parsed.absoluteDiff| = |b.size.parsed.absoluteDiff| ∧
        |b.size.gzip.absoluteDiff| < |a.size.gzip.absoluteDiff|) ∨
      (|a.size.parsed.absoluteDiff| = |b.size.parsed.absoluteDiff| ∧
        |a.size.gzip.absoluteDiff| = |b.size.gzip.absoluteDiff| ∧
        a.label ≤ b.label) := by
  simp only [rowLE, rowComparator, decide_eq_true_eq]
  split_ifs with h1 h2
  · obtain ⟨hp, hg⟩ := h1
    have hp2 : |a.size.parsed.absoluteDiff| = |b.size.parsed.absoluteDiff| :=
      (sub_eq_zero.mp hp).symm
    have hg2 : |a.size.gzip.absoluteDiff| = |b.size.gzip.absoluteDiff| :=
      (sub_eq_zero.mp hg).symm
    rw [show ((localeCompare a.label b.label : Int) : ℚ) ≤ 0 ↔
        localeCompare a.label b.label ≤ 0 from Int.cast_nonpos,
      localeCompare_nonpos]
    constructor
    · intro h
      exact Or.inr (Or.inr ⟨hp2, hg2, h⟩)
    · rintro (h | ⟨-, h⟩ | ⟨-, -, h⟩)
      · exact absurd hp2 (ne_of_gt h)
      · exact absurd hg2 (ne_of_gt h)
      · exact h
  · have hp2 : |a.size.parsed.absoluteDiff| = |b.size.parsed.absoluteDiff| :=
      (sub_eq_zero.mp h2).symm
    have hgne : |b.size.gzip.absoluteDiff| - |a.size.gzip.absoluteDiff| ≠ 0 :=
      fun h => h1 ⟨h2, h⟩
    constructor
    · intro h
      have hlt := lt_of_le_of_ne h hgne
      exact Or.inr (Or.inl ⟨hp2, by linarith⟩)
    · rintro (h | ⟨-, h⟩ | ⟨-, hgz, -⟩)
      · exact absurd hp2 (ne_of_gt h)
      · linarith
      · exact absurd (by linarith : |b.size.gzip.absoluteDiff| -
          |a.size.gzip.absoluteDiff| = 0) hgne
  · constructor
    · intro h
      have hlt := lt_of_le_of_ne h h2
      exact Or.inl (by linarith)
    · rintro (h | ⟨heq, -⟩ | ⟨heq, -, -⟩)
      · linarith
      · exact absurd (by linarith : |b.size.parsed.absoluteDiff| -
          |a.size.parsed.absoluteDiff| = 0) h2
      · exact absurd (by linarith : |b.size.parsed.absoluteDiff| -
          |a.size.parsed.absoluteDiff| = 0) h2

theorem rowLE_total (a b : Row) : rowLE a b || rowLE b a := by
  rw [Bool.or_eq_true, rowLE_iff, rowLE_iff]
  by_cases hp : |a.size.parsed.absoluteDiff| = |b.size.parsed.absoluteDiff|
  · by_cases hg : |a.size.gzip.absoluteDiff| = |b.size.gzip.absoluteDiff|
    · rcases le_total a.label b.label with h | h
      · exact Or.inl (Or.inr (Or.inr ⟨hp, hg, h⟩))
      · exact Or.inr (Or.inr (Or.inr ⟨hp.symm, hg.symm, h⟩))
    · rcases lt_or_gt_of_ne hg with h | h
      · exact Or.inr (Or.inr (Or.inl ⟨hp.symm, h⟩))
      · exact Or.inl (Or.inr (Or.inl ⟨hp, h⟩))
  · rcases lt_or_gt_of_ne hp with h | h
    · exact Or.inr (Or.inl h)
    · exact Or.inl (Or.inl h)

theorem rowLE_trans (a b c : Row) (hab : rowLE a b) (hbc : rowLE b c) :
    rowLE a c := by
  rw [rowLE_iff] at hab hbc ⊢
  rcases hab with h1 | ⟨e1, h1⟩ | ⟨e1, f1, h1⟩
  · rcases hbc with h2 | ⟨e2, h2⟩ | ⟨e2, f2, h2⟩
    · exact Or.inl (by linarith)
    · exact Or.inl (by linarith)
    · exact Or.inl (by linarith)
  · rcases hbc with h2 | ⟨e2, h2⟩ | ⟨e2, f2, h2⟩
    · exact Or.inl (by linarith)
    · exact Or.inr (Or.inl ⟨by linarith, by linarith⟩)
    · exact Or.inr (Or.inl ⟨by linarith, by linarith⟩)
  · rcases hbc with h2 | ⟨e2, h2⟩ | ⟨e2, f2, h2⟩
    · exact Or.inl (by linarith)
    · exact Or.inr (Or.inl ⟨by linarith, by linarith⟩)
    · exact Or.inr (Or.inr ⟨by linarith, by linarith, le_trans h1 h2⟩)

theorem rows_pairwise (getBundleLabel : String → String)
    (entries : List (String × Size)) :
    (rows getBundleLabel entries).Pairwise (fun a b => rowLE a b = true) :=
  List.sorted_mergeSort rowLE_trans rowLE_total _

/-- C1: the rows of the comparison tables are sorted by
`|parsed.absoluteDiff|` descending, then `|gzip.absoluteDiff|` descending,
then bundle label ascending: for any two row positions `i < j`, either the
earlier row has strictly larger absolute parsed diff, or those agree and
its absolute gzip diff is at least as large, or both agree and its label
does not come after the later one under the locale comparison. -/
theorem rows_sorted (getBundleLabel : String → String)
    (entries : List (String × Size)) (i j : ℕ) (x y : Row)
    (hij : i < j)
    (hx : (rows getBundleLabel entries)[i]? = some x)
    (hy : (rows getBundleLabel entries)[j]? = some y) :
    |y.size.parsed.absoluteDiff| < |x.size.parsed.absoluteDiff| ∨
    (|x.size.parsed.absoluteDiff| = |y.size.parsed.absoluteDiff| ∧
      |y.size.gzip.absoluteDiff| ≤ |x.size.gzip.absoluteDiff|) ∨
    (|x.size.parsed.absoluteDiff| = |y.size.parsed.absoluteDiff| ∧
      |x.size.gzip.absoluteDiff| = |y.size.gzip.absoluteDiff| ∧
      localeCompare x.label y.label ≤ 0) := by
  obtain ⟨hi, hxi⟩ := List.getElem?_eq_some_iff.mp hx
  obtain ⟨hj, hyj⟩ := List.getElem?_eq_some_iff.mp hy
  have hp := rows_pairwise getBundleLabel entries
  rw [List.pairwise_iff_getElem] at hp
  have hle := hp i j hi hj hij
  rw [hxi, hyj, rowLE_iff] at hle
  rcases hle with h | ⟨e1, h⟩ | ⟨e1, e2, h⟩
  · exact Or.inl h
  · exact Or.inr (Or.inl ⟨e1, le_of_lt h⟩)
  · exact Or.inr (Or.inr ⟨e1, e2, localeCompare_nonpos.mpr h⟩)

/-- A concrete `Size` with the larger absolute parsed diff. -/
def wSizeA : Size :=
  { parsed := ⟨1000, 1100, 100, JSNumber.num (1 / 10)⟩
    gzip := ⟨400, 440, 40, JSNumber.num (1 / 10)⟩ }

/-- A concrete `Size` with the smaller absolute parsed diff. -/
def wSizeB : Size :=
  { parsed := ⟨0, 50, 50, JSNumber.posInf⟩
    gzip := ⟨0, 20, 20, JSNumber.posInf⟩ }

/-- C1 witness: the sortedness disjunction at two concrete rows. -/
theorem rows_sorted_witness :
    (0 : ℕ) < 1 ∧
    (rows id [("a", wSizeA), ("b", wSizeB)])[0]? =
      some (Row.mk "a" wSizeA "a") ∧
    (rows id [("a", wSizeA), ("b", wSizeB)])[1]? =
      some (Row.mk "b" wSizeB "b") ∧
    (|(Row.mk "b" wSizeB "b").size.parsed.absoluteDiff| <
        |(Row.mk "a" wSizeA "a").size.parsed.absoluteDiff| ∨
      (|(Row.mk "a" wSizeA "a").size.parsed.absoluteDiff| =
          |(Row.mk "b" wSizeB "b").size.parsed.absoluteDiff| ∧
        |(Row.mk "b" wSizeB "b").size.gzip.absoluteDiff| ≤
          |(Row.mk "a" wSizeA "a").size.gzip.absoluteDiff|) ∨
      (|(Row.mk "a" wSizeA "a").size.parsed.absoluteDiff| =
          |(Row.mk "b" wSizeB "b").size.parsed.absoluteDiff| ∧
        |(Row.mk "a" wSizeA "a").size.gzip.absoluteDiff| =
          |(Row.mk "b" wSizeB "b").size.gzip.absoluteDiff| ∧
        localeCompare (Row.mk "a" wSizeA "a").label
          (Row.mk "b" wSizeB "b").label ≤ 0)) := by
  have hsort :
      ([("a", wSizeA), ("b", wSizeB)].map
          (fun e => Row.mk (id e.1) e.2 e.1)).Pairwise
        (fun a b => rowLE a b = true) := by
    simp only [List.map_cons, List.map_nil, id]
    refine List.Pairwise.cons ?_ (List.pairwise_singleton _ _)
    intro r hr
    rw [List.mem_singleton] at hr
    subst hr
    rw [rowLE_iff]
    left
    norm_num [wSizeA, wSizeB]
  have hrows : rows id [("a", wSizeA), ("b", wSizeB)] =
      [Row.mk "a" wSizeA "a", Row.mk "b" wSizeB "b"] := by
    rw [rows, List.mergeSort_of_sorted hsort]
    simp
  refine ⟨Nat.zero_lt_one, by rw [hrows]; rfl, by rw [hrows]; rfl, ?_⟩
  exact rows_sorted id [("a", wSizeA), ("b", wSizeB)] 0 1 _ _
    Nat.zero_lt_one (by rw [hrows]; rfl) (by rw [hrows]; rfl)

/-! ### The profiler-timing median -/

/-- The numeric-ascending comparator `(a, b) => a - b` of
`TimingAnalysisMean`, as the Boolean order it induces on finite JS
numbers. -/
def qle (a b : ℚ) : Bool := decide (a ≤ b)

/-- `TimingAnalysisMean` of
`src/app/routes/test-profile/$buildNumber/details/$testId.tsx`
(lines 38-45): `timings.sort((a, b) => a - b)[timings.length >> 1]`.
The in-place numeric sort is modelled with `mergeSort qle`; indexing out
of range is JS `undefined`, modelled as `none`.  Durations are finite JS
numbers, modelled as rationals. -/
def timingAnalysisMean (timings : List ℚ) : Option ℚ :=
  (timings.mergeSort qle)[timings.length >>> 1]?

theorem qle_trans (a b c : ℚ) (hab : qle a b) (hbc : qle b c) : qle a c :=
  decide_eq_true
    (le_trans (of_decide_eq_true hab) (of_decide_eq_true hbc))

theorem qle_total (a b : ℚ) : qle a b || qle b a := by
  rcases le_total a b with h | h <;> simp [qle, h]

/-- C8: for every non-empty list of timings, the displayed value is the
element at index `⌊n / 2⌋` of the list sorted in ascending numeric order
(`>> 1` is division by two), that sorted list is indeed sorted and is a
permutation of the input, and hence the value is an element of the
input. -/
theorem timingAnalysisMean_median (timings : List ℚ) (h : timings ≠ []) :
    ∃ m, timingAnalysisMean timings = some m ∧
      (timings.mergeSort qle)[timings.length / 2]? = some m ∧
      (timings.mergeSort qle).Pairwise (· ≤ ·) ∧
      List.Perm (timings.mergeSort qle) timings ∧
      m ∈ timings := by
  have hlen : (timings.mergeSort qle).length = timings.length :=
    (List.mergeSort_perm timings qle).length_eq
  have hpos : 0 < timings.length := List.length_pos.mpr h
  have hlt : timings.length / 2 < (timings.mergeSort qle).length := by
    rw [hlen]
    exact Nat.div_lt_self hpos one_lt_two
  refine ⟨(timings.mergeSort qle).get ⟨timings.length / 2, hlt⟩,
    ?_, ?_, ?_, ?_, ?_⟩
  · rw [timingAnalysisMean, Nat.shiftRight_one]
    simp [List.getElem?_eq_getElem hlt]
  · simp [List.getElem?_eq_getElem hlt]
  · exact (List.sorted_mergeSort qle_trans qle_total timings).imp
      (fun hab => of_decide_eq_true hab)
  · exact List.mergeSort_perm timings qle
  · exact List.mem_mergeSort.mp (List.get_mem _ (timings.length / 2) hlt)

/-- C8 witness: the median of the concrete timing list `[3, 1, 2]`. -/
theorem timingAnalysisMean_median_witness :
    ([3, 1, 2] : List ℚ) ≠ [] ∧
    (∃ m, timingAnalysisMean [3, 1, 2] = some m ∧
      (([3, 1, 2] : List ℚ).mergeSort qle)[([3, 1, 2] : List ℚ).length / 2]? =
        some m ∧
      (([3, 1, 2] : List ℚ).mergeSort qle).Pairwise (· ≤ ·) ∧
      List.Perm (([3, 1, 2] : List ℚ).mergeSort qle) [3, 1, 2] ∧
      m ∈ ([3, 1, 2] : List ℚ)) :=
  ⟨by simp, timingAnalysisMean_median [3, 1, 2] (by simp)⟩
